import Mathlib

set_option maxHeartbeats 1000000
set_option autoImplicit false

/- Shallow embedding of the two record stores of the personal question bank
   repository: the knowledge point store (src/src/kp_manager.py) and the
   question store (src/src/question_manager.py), together with the context
   assembly used by the command layer (src/main.py). Python dictionaries are
   modelled as records with optional string fields; a value that is not a
   JSON object is modelled by the opaque constructor nonDict. Python
   exceptions are modelled by the PyErr enumeration; fuelError is the cut
   point of the unbounded while loop in get_ancestry. -/

inductive PyErr where
  | valueError
  | typeError
  | keyError
  | attributeError
  | indexError
  | fuelError
deriving DecidableEq, Repr

/- A knowledge point record: the fields named by the data model
   (kpid, parentId, title, content, type). Every field may be absent. -/
structure KPRecord where
  kpid : Option String
  parentId : Option String
  title : Option String
  content : Option String
  ktype : Option String
deriving DecidableEq, Repr

/- An element of a parsed JSON list: either a JSON object (a record) or a
   value of another shape, kept opaque with a tag. -/
inductive Item where
  | dict (r : KPRecord)
  | nonDict (tag : Nat)
deriving DecidableEq, Repr

/- Models the Python expression kp['kpid']: KeyError when the key is absent,
   TypeError when the value is not subscriptable. -/
def itemSubKpid : Item → Except PyErr String
  | .dict r =>
    match r.kpid with
    | some k => .ok k
    | none => .error .keyError
  | .nonDict _ => .error .typeError

/- Models the Python expression new_kp.get('kpid'): AttributeError when the
   value is not a dict. -/
def itemGetKpid : Item → Except PyErr (Option String)
  | .dict r => .ok r.kpid
  | .nonDict _ => .error .attributeError

/- Models the Python expression current_kp.get('parentId'). -/
def itemGetParentId : Item → Except PyErr (Option String)
  | .dict r => .ok r.parentId
  | .nonDict _ => .error .attributeError

deriving instance DecidableEq for Except

/- Holds when the item is a record whose kpid field is exactly the given
   string. -/
def bears (it : Item) (k : String) : Prop :=
  itemSubKpid it = Except.ok k

instance (it : Item) (k : String) : Decidable (bears it k) :=
  inferInstanceAs (Decidable (itemSubKpid it = Except.ok k))

/- The kpid of the item when new_kp.get('kpid') yields a truthy value
   (present and not the empty string); none otherwise. -/
def truthyKpid (it : Item) : Option String :=
  match itemGetKpid it with
  | .ok (some k) => if k = "" then none else some k
  | _ => none

/- Holds when some record of the list has the given kpid. -/
def hasKpid (items : List Item) (k : String) : Prop :=
  ∃ it ∈ items, bears it k

instance (items : List Item) (k : String) : Decidable (hasKpid items k) :=
  inferInstanceAs (Decidable (∃ it ∈ items, bears it k))

/- Lookup in a Python dict built by inserting the listed pairs in order:
   a later insertion of the same key overwrites an earlier one. -/
def dictGet {α : Type} : List (String × α) → String → Option α
  | [], _ => none
  | (k', v) :: rest, k =>
    match dictGet rest k with
    | some v' => some v'
    | none => if k' = k then some v else none

/- The last record of a list whose kpid is the given string. -/
def lastRecWith : List Item → String → Option Item
  | [], _ => none
  | it :: rest, k =>
    match lastRecWith rest k with
    | some r => some r
    | none => if bears it k then some it else none

/- The largest index (offset by n) of a list element whose kpid is the given
   string. -/
def lastIdxFrom : Nat → List Item → String → Option Nat
  | _, [], _ => none
  | n, it :: rest, k =>
    match lastIdxFrom (n+1) rest k with
    | some j => some j
    | none => if bears it k then some n else none

/- Models the set comprehension building existing_kpid_set; raises at the
   first item without a kpid exactly as kp['kpid'] does. -/
def buildKpidSet : List Item → Except PyErr (List String)
  | [] => .ok []
  | it :: rest =>
    match itemSubKpid it with
    | .error e => .error e
    | .ok k =>
      match buildKpidSet rest with
      | .error e => .error e
      | .ok ks => .ok (k :: ks)

/- Models the dict comprehension building kpid_to_index_map, with n the index
   of the first listed item. -/
def buildIdxMap : Nat → List Item → Except PyErr (List (String × Nat))
  | _, [] => .ok []
  | n, it :: rest =>
    match itemSubKpid it with
    | .error e => .error e
    | .ok k =>
      match buildIdxMap (n+1) rest with
      | .error e => .error e
      | .ok m => .ok ((k, n) :: m)

/- Models _build_index: the dict comprehension sending kp['kpid'] to kp. -/
def build_index : List Item → Except PyErr (List (String × Item))
  | [] => .ok []
  | it :: rest =>
    match itemSubKpid it with
    | .error e => .error e
    | .ok k =>
      match build_index rest with
      | .error e => .error e
      | .ok d => .ok ((k, it) :: d)

/- The summary dict returned by import_from_file. -/
structure Summary where
  added : Nat
  updated : Nat
  skipped : Nat
  total : Nat
deriving DecidableEq, Repr

/- The observable state of a KnowledgePointManager together with its backing
   file: the in-memory list self.kps, the derived dict self.kp_index, and the
   parsed content of the file at db_path. -/
structure KPFS where
  kps : List Item
  kp_index : List (String × Item)
  file : List Item
deriving DecidableEq, Repr

/- The outcome of reading and parsing the import file: reading or parsing
   failed, parsed to a non-list JSON value, or parsed to a list of items. -/
inductive ImportPayload where
  | parseFail
  | notList
  | items (l : List Item)
deriving DecidableEq, Repr

/- The per-item loop of import_from_file for the append and merge modes,
   threading the mutable self.kps and the summary counters. -/
def importLoop (mode : String) (eset : List String) (imap : List (String × Nat)) :
    List Item → List Item → Summary → (Except PyErr Summary) × List Item
  | [], kps, s => (.ok s, kps)
  | new_kp :: rest, kps, s =>
    match itemGetKpid new_kp with
    | .error e => (.error e, kps)
    | .ok none =>
      importLoop mode eset imap rest kps { s with skipped := s.skipped + 1 }
    | .ok (some k) =>
      if k = "" then
        importLoop mode eset imap rest kps { s with skipped := s.skipped + 1 }
      else if k ∈ eset then
        if mode = "append" then
          importLoop mode eset imap rest kps { s with skipped := s.skipped + 1 }
        else
          match dictGet imap k with
          | none => (.error .keyError, kps)
          | some idx =>
            if idx < kps.length then
              importLoop mode eset imap rest (kps.set idx new_kp)
                { s with updated := s.updated + 1 }
            else (.error .indexError, kps)
      else
        importLoop mode eset imap rest (kps ++ [new_kp])
          { s with added := s.added + 1 }

/- The tail of import_from_file: _save_database (the file becomes the current
   list), then _build_index (which may raise, after the save), then setting
   summary['total']. -/
def finishImport (st : KPFS) (newKps : List Item) (s : Summary) :
    (Except PyErr Summary) × KPFS :=
  match build_index newKps with
  | .error e => (.error e, { kps := newKps, kp_index := st.kp_index, file := newKps })
  | .ok idx =>
    (.ok { s with total := newKps.length },
     { kps := newKps, kp_index := idx, file := newKps })

/- Models KnowledgePointManager.import_from_file. The payload stands for the
   result of reading and json-parsing the given path. -/
def import_from_file (st : KPFS) (payload : ImportPayload) (mode : String) :
    (Except PyErr Summary) × KPFS :=
  match payload with
  | .parseFail => (.error .valueError, st)
  | .notList => (.error .typeError, st)
  | .items new_kps =>
    if mode = "replace" then
      finishImport st new_kps { added := new_kps.length, updated := 0, skipped := 0, total := 0 }
    else if mode = "append" ∨ mode = "merge" then
      match buildKpidSet st.kps with
      | .error e => (.error e, st)
      | .ok eset =>
        match buildIdxMap 0 st.kps with
        | .error e => (.error e, st)
        | .ok imap =>
          match importLoop mode eset imap new_kps st.kps
              { added := 0, updated := 0, skipped := 0, total := 0 } with
          | (.error e, kps1) => (.error e, { st with kps := kps1 })
          | (.ok s, kps1) => finishImport { st with kps := kps1 } kps1 s
    else (.error .valueError, st)

/- Models KnowledgePointManager.get_kp_by_id: self.kp_index.get(kpid). -/
def get_kp_by_id (st : KPFS) (kpid : String) : Option Item :=
  dictGet st.kp_index kpid

/- The observable content of a backing file at load time. -/
inductive FileContent (α : Type) where
  | absent
  | emptyFile
  | malformed
  | wellFormed (items : List α)
deriving DecidableEq, Repr

/- Models KnowledgePointManager._load_data: an absent file is created with an
   empty list, empty content loads as an empty list, malformed content raises
   ValueError. -/
def load_data : FileContent Item → Except PyErr (List Item)
  | .absent => .ok []
  | .emptyFile => .ok []
  | .malformed => .error .valueError
  | .wellFormed items => .ok items

/- Models KnowledgePointManager.__init__: _load_data followed by
   _build_index, producing the initial state (the file is created with an
   empty list when absent, otherwise left as read). -/
def kp_construct (f : FileContent Item) : Except PyErr KPFS :=
  match load_data f with
  | .error e => .error e
  | .ok items =>
    match build_index items with
    | .error e => .error e
    | .ok idx => .ok { kps := items, kp_index := idx, file := items }

/- The while loop of get_ancestry, walking parent pointers from the looked-up
   record upward, with fuel bounding the number of iterations. The Python
   loop runs without a bound; a run that needs more iterations than any fuel
   is a run that does not terminate. -/
def ancestryLoop (st : KPFS) : Nat → Option Item → Except PyErr (List Item)
  | _, none => .ok []
  | 0, some _ => .error .fuelError
  | fuel + 1, some cur =>
    match itemGetParentId cur with
    | .error e => .error e
    | .ok none => .ok [cur]
    | .ok (some p) =>
      if p = "" then .ok [cur]
      else
        match ancestryLoop st fuel (get_kp_by_id st p) with
        | .error e => .error e
        | .ok rest => .ok (cur :: rest)

/- Models KnowledgePointManager.get_ancestry: walk up from kpid, then
   reverse, so the result runs from the root down to kpid. -/
def get_ancestry (st : KPFS) (kpid : String) (fuel : Nat) : Except PyErr (List Item) :=
  match ancestryLoop st fuel (get_kp_by_id st kpid) with
  | .error e => .error e
  | .ok l => .ok l.reverse

/- Predicates counting the items of an incoming batch, used to state
   the summaries of the importing modes. -/
def isNoKpid (it : Item) : Bool := (truthyKpid it).isNone

def isPreRec (base : List Item) (it : Item) : Bool :=
  match truthyKpid it with
  | some k => decide (hasKpid base k)
  | none => false

def isAddRec (base : List Item) (it : Item) : Bool :=
  match truthyKpid it with
  | some k => !decide (hasKpid base k)
  | none => false

def isPreE (eset : List String) (it : Item) : Bool :=
  match truthyKpid it with
  | some k => decide (k ∈ eset)
  | none => false

def isAddE (eset : List String) (it : Item) : Bool :=
  match truthyKpid it with
  | some k => decide (k ∉ eset)
  | none => false

/- Invariant of kpid_to_index_map against the current list: every key of the
   map points inside the list at an item bearing that key. -/
def idxConsistent (imap : List (String × Nat)) (cur : List Item) : Prop :=
  ∀ k i, dictGet imap k = some i →
    i < cur.length ∧ ∃ it, cur.get? i = some it ∧ bears it k

/- No element of the list after position i bears the kpid k. -/
def noLaterBearing (cur : List Item) (i : Nat) (k : String) : Prop :=
  ∀ j it', i < j → cur.get? j = some it' → ¬ bears it' k

/- The child relation of the knowledge point tree: c is a child of p when
   both are records and the parentId of c equals the kpid of p. -/
def childOf (c p : Item) : Prop :=
  ∃ rc rp, c = Item.dict rc ∧ p = Item.dict rp ∧ rc.parentId = rp.kpid

/- Every adjacent pair (p, c) of the list, read left to right, satisfies
   childOf c p: the list descends from an ancestor toward a descendant. -/
def linkedR : List Item → Prop
  | [] => True
  | [_] => True
  | p :: c :: rest => childOf c p ∧ linkedR (c :: rest)

/- Every adjacent pair (c, p) of the list, read left to right, satisfies
   childOf c p: the list ascends from a descendant toward an ancestor. -/
def linkedU : List Item → Prop
  | [] => True
  | [_] => True
  | c :: p :: rest => childOf c p ∧ linkedU (p :: rest)

/- A well formed store item: a record with a non-empty kpid whose parentId,
   when present, is the kpid of some record of the store. -/
def wfItem (base : List Item) (it : Item) : Bool :=
  match it with
  | .dict r =>
    (match r.kpid with
     | some k => !decide (k = "")
     | none => false) &&
    (match r.parentId with
     | none => true
     | some p => decide (hasKpid base p))
  | .nonDict _ => false

/- ------------------- question store ------------------- -/

/- A question record: the fields named by the data model. -/
structure QRecord where
  questionId : Option String
  structureType : Option String
  parentId : Option String
  stem : Option String
  importTimestampUTC : Option String
deriving DecidableEq, Repr

/- The outcome of reading and parsing the question import file: missing file,
   parse failure, a JSON object, a JSON list, or a scalar of another shape. -/
inductive QImportPayload where
  | fileMissing
  | parseFail
  | record (r : QRecord)
  | arr (rs : List QRecord)
  | otherScalar (tag : Nat)
deriving DecidableEq, Repr

/- Models QuestionManager._load_database: absent or empty content loads as an
   empty list, and a JSONDecodeError is caught, printing a warning and
   initialising an empty list, so the constructor never raises. -/
def q_load_database : FileContent QRecord → Except PyErr (List QRecord)
  | .absent => .ok []
  | .emptyFile => .ok []
  | .malformed => .ok []
  | .wellFormed items => .ok items

/- Models QuestionManager.import_question_from_file. newId stands for the
   generated uuid4 string and ts for the utcnow timestamp. A missing or
   unparsable file is caught and None is returned; a payload that is not a
   dict raises TypeError at the item assignment question_data['questionId']
   before any mutation. -/
def import_question_from_file (questions : List QRecord) (payload : QImportPayload)
    (newId ts : String) : (Except PyErr (Option QRecord)) × List QRecord :=
  match payload with
  | .fileMissing => (.ok none, questions)
  | .parseFail => (.ok none, questions)
  | .record r =>
    let r' := { r with questionId := some newId, importTimestampUTC := some ts }
    (.ok (some r'), questions ++ [r'])
  | .arr _ => (.error .typeError, questions)
  | .otherScalar _ => (.error .typeError, questions)

/- Models QuestionManager.get_question_by_id: the first stored question whose
   questionId equals the argument, else None. -/
def get_question_by_id (questions : List QRecord) (qid : String) : Option QRecord :=
  questions.find? (fun q => decide (q.questionId = some qid))

/-- Modelled from the spec: getChildren(parentId) returns all questions whose
parentId equals the given identifier. The QuestionManager under src has no
such method; only the spec and the show_question caller in main.py describe
it. -/
def getChildren (questions : List QRecord) (pid : String) : List QRecord :=
  questions.filter (fun q => decide (q.parentId = some pid))

/- The context structure returned to the show command. -/
structure QContext where
  target : Option QRecord
  parent : Option QRecord
  children : List QRecord
deriving DecidableEq, Repr

/-- Modelled from the spec: get_full_question_context(questionId) assembles
target (the looked-up question or absent, the other fields empty when it is
absent), parent (looked up from target.parentId when set, possibly absent if
dangling), and children (computed via getChildren only when the target has
structureType COMPOSITE, otherwise empty). The method is absent under src;
only its caller show_question in main.py exists. -/
def get_full_question_context (questions : List QRecord) (qid : String) : QContext :=
  match get_question_by_id questions qid with
  | none => { target := none, parent := none, children := [] }
  | some t =>
    { target := some t
      parent :=
        match t.parentId with
        | some p => get_question_by_id questions p
        | none => none
      children :=
        if t.structureType = some "COMPOSITE" then getChildren questions qid else [] }

/- ------------------- helper lemmas ------------------- -/

theorem bears_dict {r : KPRecord} {k : String} :
    bears (Item.dict r) k ↔ r.kpid = some k := by
  unfold bears itemSubKpid
  cases hk : r.kpid <;> simp [hk]

theorem bears_nonDict {t : Nat} {k : String} : ¬ bears (Item.nonDict t) k := by
  unfold bears itemSubKpid
  simp

theorem truthyKpid_some {it : Item} {k : String} (h : truthyKpid it = some k) :
    itemSubKpid it = Except.ok k ∧ itemGetKpid it = Except.ok (some k) ∧ ¬ k = "" := by
  cases it with
  | dict r =>
    cases hk : r.kpid with
    | none => simp [truthyKpid, itemGetKpid, hk] at h
    | some k0 =>
      by_cases h0 : k0 = ""
      · simp [truthyKpid, itemGetKpid, hk, h0] at h
      · simp [truthyKpid, itemGetKpid, hk, h0] at h
        subst h
        exact ⟨by simp [itemSubKpid, hk], by simp [itemGetKpid, hk], h0⟩
  | nonDict t => simp [truthyKpid, itemGetKpid] at h

theorem truthyKpid_dict {r : KPRecord} {k : String} (hk : r.kpid = some k)
    (h0 : ¬ k = "") : truthyKpid (Item.dict r) = some k := by
  simp [truthyKpid, itemGetKpid, hk, h0]

theorem buildKpidSet_mem :
    ∀ (items : List Item) (l : List String), buildKpidSet items = Except.ok l →
      ∀ k, (k ∈ l ↔ hasKpid items k) := by
  intro items
  induction items with
  | nil =>
    intro l h k
    simp only [buildKpidSet] at h
    injection h with h
    subst h
    simp [hasKpid]
  | cons it rest ih =>
    intro l h k
    cases hsub : itemSubKpid it with
    | error e => simp [buildKpidSet, hsub] at h
    | ok k0 =>
      cases hrest : buildKpidSet rest with
      | error e => simp [buildKpidSet, hsub, hrest] at h
      | ok ks =>
        simp only [buildKpidSet, hsub, hrest] at h
        injection h with h
        subst h
        have hb : bears it k ↔ k0 = k := by
          unfold bears
          rw [hsub]
          simp
        simp only [List.mem_cons, hasKpid, List.mem_cons]
        constructor
        · rintro (h1 | h1)
          · exact ⟨it, Or.inl rfl, hb.mpr h1.symm⟩
          · obtain ⟨it', hm, hbe⟩ := (ih ks hrest k).mp h1
            exact ⟨it', Or.inr hm, hbe⟩
        · rintro ⟨it', hm | hm, hbe⟩
          · subst hm
            exact Or.inl (hb.mp hbe).symm
          · exact Or.inr ((ih ks hrest k).mpr ⟨it', hm, hbe⟩)

theorem dictGet_buildIdxMap :
    ∀ (items : List Item) (n : Nat) (m : List (String × Nat)),
      buildIdxMap n items = Except.ok m →
      ∀ k, dictGet m k = lastIdxFrom n items k := by
  intro items
  induction items with
  | nil =>
    intro n m h k
    simp only [buildIdxMap] at h
    injection h with h
    subst h
    rfl
  | cons it rest ih =>
    intro n m h k
    cases hsub : itemSubKpid it with
    | error e => simp [buildIdxMap, hsub] at h
    | ok k0 =>
      cases hrest : buildIdxMap (n+1) rest with
      | error e => simp [buildIdxMap, hsub, hrest] at h
      | ok m' =>
        simp only [buildIdxMap, hsub, hrest] at h
        injection h with h
        subst h
        have hb : bears it k ↔ k0 = k := by
          unfold bears
          rw [hsub]
          simp
        simp only [dictGet, lastIdxFrom, ih (n+1) m' hrest k]
        cases lastIdxFrom (n+1) rest k with
        | some j => rfl
        | none =>
          by_cases hkk : k0 = k
          · rw [if_pos hkk, if_pos (hb.mpr hkk)]
          · rw [if_neg hkk, if_neg (fun hc => hkk (hb.mp hc))]

theorem dictGet_build_index :
    ∀ (items : List Item) (d : List (String × Item)),
      build_index items = Except.ok d →
      ∀ k, dictGet d k = lastRecWith items k := by
  intro items
  induction items with
  | nil =>
    intro d h k
    simp only [build_index] at h
    injection h with h
    subst h
    rfl
  | cons it rest ih =>
    intro d h k
    cases hsub : itemSubKpid it with
    | error e => simp [build_index, hsub] at h
    | ok k0 =>
      cases hrest : build_index rest with
      | error e => simp [build_index, hsub, hrest] at h
      | ok d' =>
        simp only [build_index, hsub, hrest] at h
        injection h with h
        subst h
        have hb : bears it k ↔ k0 = k := by
          unfold bears
          rw [hsub]
          simp
        simp only [dictGet, lastRecWith, ih d' hrest k]
        cases lastRecWith rest k with
        | some r => rfl
        | none =>
          by_cases hkk : k0 = k
          · rw [if_pos hkk, if_pos (hb.mpr hkk)]
          · rw [if_neg hkk, if_neg (fun hc => hkk (hb.mp hc))]

theorem lastRecWith_none :
    ∀ (items : List Item) (k : String),
      lastRecWith items k = none ↔ ∀ it ∈ items, ¬ bears it k := by
  intro items k
  induction items with
  | nil => simp [lastRecWith]
  | cons it rest ih =>
    simp only [lastRecWith, List.mem_cons]
    cases hrest : lastRecWith rest k with
    | some r =>
      constructor
      · intro h
        exact Option.noConfusion h
      · intro h
        have hn : lastRecWith rest k = none :=
          ih.mpr (fun it' hm => h it' (Or.inr hm))
        rw [hn] at hrest
        exact Option.noConfusion hrest
    | none =>
      have hr : ∀ it' ∈ rest, ¬ bears it' k := ih.mp hrest
      by_cases hb : bears it k
      · rw [if_pos hb]
        constructor
        · intro h
          exact Option.noConfusion h
        · intro h
          exact absurd hb (h it (Or.inl rfl))
      · rw [if_neg hb]
        constructor
        · intro _ it' hm
          rcases hm with h1 | h1
          · rw [h1]
            exact hb
          · exact hr it' h1
        · intro _
          rfl

theorem lastRecWith_mem :
    ∀ (items : List Item) (k : String) (it : Item),
      lastRecWith items k = some it → it ∈ items ∧ bears it k := by
  intro items k
  induction items with
  | nil => intro it h; simp [lastRecWith] at h
  | cons it0 rest ih =>
    intro it h
    simp only [lastRecWith] at h
    cases hrest : lastRecWith rest k with
    | some r =>
      rw [hrest] at h
      injection h with h
      subst h
      obtain ⟨hm, hb⟩ := ih r hrest
      exact ⟨List.mem_cons_of_mem _ hm, hb⟩
    | none =>
      rw [hrest] at h
      by_cases hb : bears it0 k
      · rw [if_pos hb] at h
        injection h with h
        subst h
        exact ⟨List.mem_cons_self _ _, hb⟩
      · rw [if_neg hb] at h
        exact Option.noConfusion h

theorem lastRecWith_isSome :
    ∀ (items : List Item) (k : String),
      (∃ it, lastRecWith items k = some it) ↔ hasKpid items k := by
  intro items k
  constructor
  · rintro ⟨it, h⟩
    obtain ⟨hm, hb⟩ := lastRecWith_mem items k it h
    exact ⟨it, hm, hb⟩
  · intro h
    cases hl : lastRecWith items k with
    | some it => exact ⟨it, rfl⟩
    | none =>
      obtain ⟨it, hm, hb⟩ := h
      exact absurd hb ((lastRecWith_none items k).mp hl it hm)

theorem lastIdxFrom_none :
    ∀ (items : List Item) (n : Nat) (k : String),
      lastIdxFrom n items k = none ↔ ∀ it ∈ items, ¬ bears it k := by
  intro items
  induction items with
  | nil => intro n k; simp [lastIdxFrom]
  | cons it rest ih =>
    intro n k
    simp only [lastIdxFrom, List.mem_cons]
    cases hrest : lastIdxFrom (n+1) rest k with
    | some j =>
      constructor
      · intro h
        exact Option.noConfusion h
      · intro h
        have hn : lastIdxFrom (n+1) rest k = none :=
          (ih (n+1) k).mpr (fun it' hm => h it' (Or.inr hm))
        rw [hn] at hrest
        exact Option.noConfusion hrest
    | none =>
      have hr : ∀ it' ∈ rest, ¬ bears it' k := (ih (n+1) k).mp hrest
      by_cases hb : bears it k
      · rw [if_pos hb]
        constructor
        · intro h
          exact Option.noConfusion h
        · intro h
          exact absurd hb (h it (Or.inl rfl))
      · rw [if_neg hb]
        constructor
        · intro _ it' hm
          rcases hm with h1 | h1
          · rw [h1]
            exact hb
          · exact hr it' h1
        · intro _
          rfl

theorem lastIdxFrom_some :
    ∀ (items : List Item) (n : Nat) (k : String) (i : Nat),
      lastIdxFrom n items k = some i →
      n ≤ i ∧ i - n < items.length ∧
      (∃ it, items.get? (i - n) = some it ∧ bears it k) ∧
      (∀ j it', items.get? j = some it' → bears it' k → n + j ≤ i) := by
  intro items
  induction items with
  | nil => intro n k i h; simp [lastIdxFrom] at h
  | cons it rest ih =>
    intro n k i h
    simp only [lastIdxFrom] at h
    cases hrest : lastIdxFrom (n+1) rest k with
    | some j =>
      rw [hrest] at h
      injection h with h
      obtain ⟨h1, h2, ⟨it', hg, hb⟩, h4⟩ := ih (n+1) k j hrest
      subst h
      refine ⟨by omega, by simp; omega, ⟨it', ?_, hb⟩, ?_⟩
      · have he : j - n = (j - (n+1)) + 1 := by omega
        rw [he]
        exact hg
      · intro j2 it2 hg2 hb2
        cases j2 with
        | zero => omega
        | succ j' =>
          have hj := h4 j' it2 (by simpa using hg2) hb2
          omega
    | none =>
      rw [hrest] at h
      by_cases hb : bears it k
      · rw [if_pos hb] at h
        injection h with h
        subst h
        refine ⟨Nat.le_refl n, by simp, ⟨it, by simp, hb⟩, ?_⟩
        intro j it2 hg2 hb2
        cases j with
        | zero => omega
        | succ j' =>
          exact absurd hb2
            ((lastIdxFrom_none rest (n+1) k).mp hrest it2 (List.get?_mem (by simpa using hg2)))
      · rw [if_neg hb] at h
        exact Option.noConfusion h

theorem lastRecWith_of_pos :
    ∀ (l : List Item) (k : String) (i : Nat) (r : Item),
      l.get? i = some r → bears r k →
      (∀ j it', i < j → l.get? j = some it' → ¬ bears it' k) →
      lastRecWith l k = some r := by
  intro l
  induction l with
  | nil => intro k i r hg; simp at hg
  | cons it rest ih =>
    intro k i r hg hb hno
    cases i with
    | zero =>
      have hr : it = r := by
        simp at hg
        exact hg
      subst hr
      have hn : lastRecWith rest k = none := by
        rw [lastRecWith_none]
        intro it' hm hbe
        obtain ⟨j', hg'⟩ := List.get?_of_mem hm
        exact hno (j' + 1) it' (Nat.succ_pos j') (by simpa using hg') hbe
      simp only [lastRecWith, hn]
      rw [if_pos hb]
    | succ i' =>
      have hg' : rest.get? i' = some r := by simpa using hg
      have hrest : lastRecWith rest k = some r := by
        refine ih k i' r hg' hb ?_
        intro j it' hij hgj
        exact hno (j + 1) it' (by omega) (by simpa using hgj)
      simp only [lastRecWith, hrest]

theorem importLoop_comp (mode : String) (eset : List String) (imap : List (String × Nat)) :
    ∀ (xs ys cur : List Item) (s : Summary),
      importLoop mode eset imap (xs ++ ys) cur s =
        match importLoop mode eset imap xs cur s with
        | (.ok s', cur') => importLoop mode eset imap ys cur' s'
        | (.error e, cur') => (.error e, cur') := by
  intro xs
  induction xs with
  | nil => intro ys cur s; rfl
  | cons it rest ih =>
    intro ys cur s
    simp only [List.cons_append, importLoop]
    cases hk : itemGetKpid it with
    | error e => rfl
    | ok okid =>
      cases okid with
      | none =>
        dsimp only
        exact ih ys cur _
      | some k =>
        dsimp only
        by_cases h0 : k = ""
        · rw [if_pos h0, if_pos h0]
          exact ih ys cur _
        · rw [if_neg h0, if_neg h0]
          by_cases hin : k ∈ eset
          · rw [if_pos hin, if_pos hin]
            by_cases hap : mode = "append"
            · rw [if_pos hap, if_pos hap]
              exact ih ys cur _
            · rw [if_neg hap, if_neg hap]
              cases dictGet imap k with
              | none => rfl
              | some idx =>
                dsimp only
                by_cases hlt : idx < cur.length
                · rw [if_pos hlt, if_pos hlt]
                  exact ih ys _ _
                · rw [if_neg hlt, if_neg hlt]
          · rw [if_neg hin, if_neg hin]
            exact ih ys _ _

theorem importLoop_counts (mode : String) (eset : List String) (imap : List (String × Nat)) :
    ∀ (bs cur : List Item) (s s1 : Summary) (kps1 : List Item),
      importLoop mode eset imap bs cur s = (Except.ok s1, kps1) →
      s1.added = s.added + bs.countP (isAddE eset) ∧
      s1.updated = s.updated + (if mode = "append" then 0 else bs.countP (isPreE eset)) ∧
      s1.skipped = s.skipped + bs.countP isNoKpid
        + (if mode = "append" then bs.countP (isPreE eset) else 0) ∧
      s1.total = s.total := by
  intro bs
  induction bs with
  | nil =>
    intro cur s s1 kps1 h
    simp only [importLoop] at h
    injection h with h1 h2
    injection h1 with h1
    subst h1
    simp [List.countP_nil]
  | cons it rest ih =>
    intro cur s s1 kps1 h
    simp only [importLoop] at h
    cases hk : itemGetKpid it with
    | error e =>
      rw [hk] at h
      dsimp only at h
      injection h with h1 h2
      exact Except.noConfusion h1
    | ok okid =>
      cases okid with
      | none =>
        rw [hk] at h
        dsimp only at h
        have htr : truthyKpid it = none := by simp [truthyKpid, hk]
        obtain ⟨ha, hu, hsk, ht⟩ := ih cur _ s1 kps1 h
        simp only [List.countP_cons, isNoKpid, isAddE, isPreE, htr] at *
        refine ⟨by simp at ha ⊢; omega, ?_, ?_, ht⟩
        · split <;> simp_all <;> omega
        · split <;> simp_all <;> omega
      | some k =>
        rw [hk] at h
        dsimp only at h
        by_cases h0 : k = ""
        · rw [if_pos h0] at h
          have htr : truthyKpid it = none := by simp [truthyKpid, hk, h0]
          obtain ⟨ha, hu, hsk, ht⟩ := ih cur _ s1 kps1 h
          simp only [List.countP_cons, isNoKpid, isAddE, isPreE, htr] at *
          refine ⟨by simp at ha ⊢; omega, ?_, ?_, ht⟩
          · split <;> simp_all <;> omega
          · split <;> simp_all <;> omega
        · rw [if_neg h0] at h
          have htr : truthyKpid it = some k := by simp [truthyKpid, hk, h0]
          by_cases hin : k ∈ eset
          · rw [if_pos hin] at h
            by_cases hap : mode = "append"
            · rw [if_pos hap] at h
              obtain ⟨ha, hu, hsk, ht⟩ := ih cur _ s1 kps1 h
              simp only [List.countP_cons, isNoKpid, isAddE, isPreE, htr, hin, hap] at *
              refine ⟨by simp at ha ⊢; omega, by simp_all, by simp_all; omega, ht⟩
            · rw [if_neg hap] at h
              cases hidx : dictGet imap k with
              | none =>
                rw [hidx] at h
                dsimp only at h
                injection h with h1 h2
                exact Except.noConfusion h1
              | some idx =>
                rw [hidx] at h
                dsimp only at h
                by_cases hlt : idx < cur.length
                · rw [if_pos hlt] at h
                  obtain ⟨ha, hu, hsk, ht⟩ := ih _ _ s1 kps1 h
                  simp only [List.countP_cons, isNoKpid, isAddE, isPreE, htr, hin, hap] at *
                  refine ⟨by simp at ha ⊢; omega, by simp_all; omega, by simp_all, ht⟩
                · rw [if_neg hlt] at h
                  injection h with h1 h2
                  exact Except.noConfusion h1
          · rw [if_neg hin] at h
            obtain ⟨ha, hu, hsk, ht⟩ := ih _ _ s1 kps1 h
            simp only [List.countP_cons, isNoKpid, isAddE, isPreE, htr, hin] at *
            refine ⟨by simp_all; omega, ?_, ?_, ht⟩
            · split <;> simp_all <;> omega
            · split <;> simp_all <;> omega

theorem take_concat_of_get? (l : List Item) (n : Nat) (a : Item)
    (hl : l.length = n + 1) (hg : l.get? n = some a) : l = l.take n ++ [a] := by
  have hsplit : l.take n ++ l.drop n = l := List.take_append_drop n l
  have hlen : (l.drop n).length = 1 := by
    rw [List.length_drop]
    omega
  have hg0 : (l.drop n).get? 0 = some a := by
    rw [List.get?_drop]
    simpa using hg
  cases hd : l.drop n with
  | nil => rw [hd] at hlen; simp at hlen
  | cons x xs =>
    cases xs with
    | nil =>
      rw [hd] at hg0
      simp at hg0
      rw [hg0] at hd
      conv_lhs => rw [← hsplit, hd]
    | cons y ys => rw [hd] at hlen; simp at hlen

theorem importLoop_struct (mode : String) (eset : List String)
    (imap : List (String × Nat)) (B : Nat)
    (hB : ∀ k i, dictGet imap k = some i → i < B) :
    ∀ (bs cur : List Item) (s s1 : Summary) (kps1 : List Item),
      B ≤ cur.length →
      importLoop mode eset imap bs cur s = (Except.ok s1, kps1) →
      ∃ modif, kps1 = modif ++ bs.filter (isAddE eset) ∧
        modif.length = cur.length ∧
        (mode = "append" → modif = cur) ∧
        (∀ i, i < cur.length →
          modif.get? i = cur.get? i ∨
          (i < B ∧ ∃ it2, it2 ∈ bs ∧ modif.get? i = some it2 ∧ (truthyKpid it2).isSome)) := by
  intro bs
  induction bs with
  | nil =>
    intro cur s s1 kps1 hBc h
    simp only [importLoop] at h
    injection h with h1 h2
    refine ⟨cur, ?_, rfl, fun _ => rfl, fun i _ => Or.inl rfl⟩
    rw [← h2]
    simp
  | cons it rest ih =>
    intro cur s s1 kps1 hBc h
    simp only [importLoop] at h
    cases hk : itemGetKpid it with
    | error e =>
      rw [hk] at h
      dsimp only at h
      injection h with h1 h2
      exact Except.noConfusion h1
    | ok okid =>
      cases okid with
      | none =>
        rw [hk] at h
        dsimp only at h
        have htr : truthyKpid it = none := by simp [truthyKpid, hk]
        obtain ⟨modif, he, hlen, happ, hpos⟩ := ih cur _ s1 kps1 hBc h
        have hf : isAddE eset it = false := by simp [isAddE, htr]
        refine ⟨modif, ?_, hlen, happ, ?_⟩
        · rw [he]
          simp [List.filter_cons, hf]
        · intro i hi
          rcases hpos i hi with h1 | ⟨h1, it2, hm, h2, h3⟩
          · exact Or.inl h1
          · exact Or.inr ⟨h1, it2, List.mem_cons_of_mem _ hm, h2, h3⟩
      | some k =>
        rw [hk] at h
        dsimp only at h
        by_cases h0 : k = ""
        · rw [if_pos h0] at h
          have htr : truthyKpid it = none := by simp [truthyKpid, hk, h0]
          obtain ⟨modif, he, hlen, happ, hpos⟩ := ih cur _ s1 kps1 hBc h
          have hf : isAddE eset it = false := by simp [isAddE, htr]
          refine ⟨modif, ?_, hlen, happ, ?_⟩
          · rw [he]
            simp [List.filter_cons, hf]
          · intro i hi
            rcases hpos i hi with h1 | ⟨h1, it2, hm, h2, h3⟩
            · exact Or.inl h1
            · exact Or.inr ⟨h1, it2, List.mem_cons_of_mem _ hm, h2, h3⟩
        · rw [if_neg h0] at h
          have htr : truthyKpid it = some k := by simp [truthyKpid, hk, h0]
          by_cases hin : k ∈ eset
          · rw [if_pos hin] at h
            have hf : isAddE eset it = false := by simp [isAddE, htr, hin]
            by_cases hap : mode = "append"
            · rw [if_pos hap] at h
              obtain ⟨modif, he, hlen, happ, hpos⟩ := ih cur _ s1 kps1 hBc h
              refine ⟨modif, ?_, hlen, happ, ?_⟩
              · rw [he]
                simp [List.filter_cons, hf]
              · intro i hi
                rcases hpos i hi with h1 | ⟨h1, it2, hm, h2, h3⟩
                · exact Or.inl h1
                · exact Or.inr ⟨h1, it2, List.mem_cons_of_mem _ hm, h2, h3⟩
            · rw [if_neg hap] at h
              cases hidx : dictGet imap k with
              | none =>
                rw [hidx] at h
                dsimp only at h
                injection h with h1 h2
                exact Except.noConfusion h1
              | some idx =>
                rw [hidx] at h
                dsimp only at h
                have hiB : idx < B := hB k idx hidx
                have hilt : idx < cur.length := Nat.lt_of_lt_of_le hiB hBc
                rw [if_pos hilt] at h
                have hBc2 : B ≤ (cur.set idx it).length := by
                  rw [List.length_set]
                  exact hBc
                obtain ⟨modif, he, hlen, happ, hpos⟩ := ih (cur.set idx it) _ s1 kps1 hBc2 h
                rw [List.length_set] at hlen
                refine ⟨modif, ?_, hlen, fun hm => absurd hm hap, ?_⟩
                · rw [he]
                  simp [List.filter_cons, hf]
                · intro i hi
                  have hi2 : i < (cur.set idx it).length := by
                    rw [List.length_set]
                    exact hi
                  rcases hpos i hi2 with h1 | ⟨h1, it2, hm, h2, h3⟩
                  · by_cases hieq : idx = i
                    · subst hieq
                      rw [List.get?_set_eq_of_lt it hilt] at h1
                      exact Or.inr ⟨hiB, it, List.mem_cons_self _ _, h1, by simp [htr]⟩
                    · rw [List.get?_set_ne it cur hieq] at h1
                      exact Or.inl h1
                  · exact Or.inr ⟨h1, it2, List.mem_cons_of_mem _ hm, h2, h3⟩
          · rw [if_neg hin] at h
            have hf : isAddE eset it = true := by simp [isAddE, htr, hin]
            have hBc2 : B ≤ (cur ++ [it]).length := by
              simp
              omega
            obtain ⟨modif2, he, hlen, happ, hpos⟩ := ih (cur ++ [it]) _ s1 kps1 hBc2 h
            have hlen2 : modif2.length = cur.length + 1 := by simpa using hlen
            have hboundary : modif2.get? cur.length = some it := by
              have hcl : cur.length < (cur ++ [it]).length := by simp
              rcases hpos cur.length hcl with h1 | ⟨h1, _, _, _, _⟩
              · rw [h1]
                exact List.get?_concat_length cur it
              · omega
            have hsplit := take_concat_of_get? modif2 cur.length it hlen2 hboundary
            refine ⟨modif2.take cur.length, ?_, ?_, ?_, ?_⟩
            · rw [he]
              conv_lhs => rw [hsplit]
              simp [List.filter_cons, hf]
            · rw [List.length_take]
              omega
            · intro hm
              have := happ hm
              rw [this]
              exact List.take_left cur [it]
            · intro i hi
              have hti : (modif2.take cur.length).get? i = modif2.get? i :=
                List.get?_take hi
              have hi2 : i < (cur ++ [it]).length := by simp; omega
              rcases hpos i hi2 with h1 | ⟨h1, it2, hm2, h2, h3⟩
              · rw [hti, h1, List.get?_append hi]
                exact Or.inl rfl
              · exact Or.inr ⟨h1, it2, List.mem_cons_of_mem _ hm2, by rw [hti]; exact h2, h3⟩

theorem countP_congr_mem {α : Type} (l : List α) (p q : α → Bool)
    (h : ∀ a ∈ l, p a = q a) : l.countP p = l.countP q := by
  induction l with
  | nil => simp
  | cons a l ih =>
    simp only [List.countP_cons]
    rw [ih (fun b hb => h b (List.mem_cons_of_mem _ hb)), h a (List.mem_cons_self _ _)]

theorem bears_fun {it : Item} {k1 k2 : String} (h1 : bears it k1)
    (h2 : bears it k2) : k1 = k2 := by
  unfold bears at h1 h2
  rw [h1] at h2
  exact Except.ok.inj h2

theorem get?_some_lt {α : Type} {l : List α} {n : Nat} {a : α}
    (h : l.get? n = some a) : n < l.length := by
  by_contra hc
  rw [List.get?_len_le (by omega)] at h
  exact Option.noConfusion h

theorem idxConsistent_set {imap : List (String × Nat)} {cur : List Item} {i0 : Nat}
    {k0 : String} {it : Item} (hJ : idxConsistent imap cur)
    (hidx : dictGet imap k0 = some i0) (hb : bears it k0) :
    idxConsistent imap (cur.set i0 it) := by
  intro k i hgi
  obtain ⟨hlt, it1, hgit, hbit⟩ := hJ k i hgi
  rw [List.length_set]
  refine ⟨hlt, ?_⟩
  by_cases hieq : i0 = i
  · subst hieq
    obtain ⟨hlt0, it0, hgit0, hbit0⟩ := hJ k0 i0 hidx
    rw [hgit0] at hgit
    injection hgit with he
    have hbit0' : bears it1 k0 := by rw [← he]; exact hbit0
    have hk : k0 = k := bears_fun hbit0' hbit
    subst hk
    exact ⟨it, List.get?_set_eq_of_lt it hlt, hb⟩
  · rw [List.get?_set_ne it cur hieq]
    exact ⟨it1, hgit, hbit⟩

theorem idxConsistent_append {imap : List (String × Nat)} {cur : List Item}
    {it : Item} (hJ : idxConsistent imap cur) :
    idxConsistent imap (cur ++ [it]) := by
  intro k i hgi
  obtain ⟨hlt, it1, hgit, hbit⟩ := hJ k i hgi
  refine ⟨by simp; omega, ?_⟩
  rw [List.get?_append hlt]
  exact ⟨it1, hgit, hbit⟩

theorem importLoop_idxConsistent (mode : String) (eset : List String)
    (imap : List (String × Nat)) :
    ∀ (bs cur : List Item) (s s1 : Summary) (kps1 : List Item),
      importLoop mode eset imap bs cur s = (Except.ok s1, kps1) →
      idxConsistent imap cur → idxConsistent imap kps1 := by
  intro bs
  induction bs with
  | nil =>
    intro cur s s1 kps1 h hJ
    simp only [importLoop] at h
    injection h with h1 h2
    rw [← h2]
    exact hJ
  | cons it rest ih =>
    intro cur s s1 kps1 h hJ
    simp only [importLoop] at h
    cases hk : itemGetKpid it with
    | error e =>
      rw [hk] at h
      dsimp only at h
      injection h with h1 h2
      exact Except.noConfusion h1
    | ok okid =>
      cases okid with
      | none =>
        rw [hk] at h
        dsimp only at h
        exact ih cur _ s1 kps1 h hJ
      | some k =>
        rw [hk] at h
        dsimp only at h
        by_cases h0 : k = ""
        · rw [if_pos h0] at h
          exact ih cur _ s1 kps1 h hJ
        · rw [if_neg h0] at h
          by_cases hin : k ∈ eset
          · rw [if_pos hin] at h
            by_cases hap : mode = "append"
            · rw [if_pos hap] at h
              exact ih cur _ s1 kps1 h hJ
            · rw [if_neg hap] at h
              cases hidx : dictGet imap k with
              | none =>
                rw [hidx] at h
                dsimp only at h
                injection h with h1 h2
                exact Except.noConfusion h1
              | some idx =>
                rw [hidx] at h
                dsimp only at h
                by_cases hlt : idx < cur.length
                · rw [if_pos hlt] at h
                  have hbit : bears it k :=
                    (truthyKpid_some (by simp [truthyKpid, hk, h0])).1
                  exact ih _ _ s1 kps1 h (idxConsistent_set hJ hidx hbit)
                · rw [if_neg hlt] at h
                  injection h with h1 h2
                  exact Except.noConfusion h1
          · rw [if_neg hin] at h
            exact ih _ _ s1 kps1 h (idxConsistent_append hJ)

theorem importLoop_frame (eset : List String) (imap : List (String × Nat))
    (k : String) (i : Nat) (hidx : dictGet imap k = some i) :
    ∀ (bs cur : List Item) (s s1 : Summary) (kps1 : List Item) (r : Item),
      importLoop "merge" eset imap bs cur s = (Except.ok s1, kps1) →
      idxConsistent imap cur →
      (∀ it2 ∈ bs, ∀ k2, truthyKpid it2 = some k2 → k2 ≠ k) →
      cur.get? i = some r →
      noLaterBearing cur i k →
      kps1.get? i = some r ∧ noLaterBearing kps1 i k := by
  intro bs
  induction bs with
  | nil =>
    intro cur s s1 kps1 r h hJ hnb hg hnl
    simp only [importLoop] at h
    injection h with h1 h2
    rw [← h2]
    exact ⟨hg, hnl⟩
  | cons it rest ih =>
    intro cur s s1 kps1 r h hJ hnb hg hnl
    simp only [importLoop] at h
    cases hk : itemGetKpid it with
    | error e =>
      rw [hk] at h
      dsimp only at h
      injection h with h1 h2
      exact Except.noConfusion h1
    | ok okid =>
      cases okid with
      | none =>
        rw [hk] at h
        dsimp only at h
        exact ih cur _ s1 kps1 r h hJ
          (fun it2 hm => hnb it2 (List.mem_cons_of_mem _ hm)) hg hnl
      | some k2 =>
        rw [hk] at h
        dsimp only at h
        by_cases h0 : k2 = ""
        · rw [if_pos h0] at h
          exact ih cur _ s1 kps1 r h hJ
            (fun it2 hm => hnb it2 (List.mem_cons_of_mem _ hm)) hg hnl
        · rw [if_neg h0] at h
          have htr : truthyKpid it = some k2 := by simp [truthyKpid, hk, h0]
          have hk2k : k2 ≠ k := hnb it (List.mem_cons_self _ _) k2 htr
          have hbit2 : bears it k2 := (truthyKpid_some htr).1
          by_cases hin2 : k2 ∈ eset
          · rw [if_pos hin2] at h
            rw [if_neg (by decide : ¬ ("merge" = "append"))] at h
            cases hidx2 : dictGet imap k2 with
            | none =>
              rw [hidx2] at h
              dsimp only at h
              injection h with h1 h2
              exact Except.noConfusion h1
            | some idx2 =>
              rw [hidx2] at h
              dsimp only at h
              by_cases hlt2 : idx2 < cur.length
              · rw [if_pos hlt2] at h
                have hne : idx2 ≠ i := by
                  intro he
                  subst he
                  obtain ⟨_, it1, hg1, hb1⟩ := hJ k idx2 hidx
                  obtain ⟨_, it2', hg2, hb2⟩ := hJ k2 idx2 hidx2
                  rw [hg1] at hg2
                  injection hg2 with he2
                  have hb2' : bears it1 k2 := by rw [he2]; exact hb2
                  exact hk2k (bears_fun hb2' hb1)
                have hg' : (cur.set idx2 it).get? i = some r := by
                  rw [List.get?_set_ne it cur hne]
                  exact hg
                have hnl' : noLaterBearing (cur.set idx2 it) i k := by
                  intro j it' hij hgj
                  by_cases hjeq : idx2 = j
                  · subst hjeq
                    rw [List.get?_set_eq_of_lt it hlt2] at hgj
                    injection hgj with hgj
                    intro hbk
                    have hbk' : bears it k := by rw [hgj]; exact hbk
                    exact hk2k (bears_fun hbit2 hbk')
                  · rw [List.get?_set_ne it cur hjeq] at hgj
                    exact hnl j it' hij hgj
                exact ih _ _ s1 kps1 r h (idxConsistent_set hJ hidx2 hbit2)
                  (fun it2 hm => hnb it2 (List.mem_cons_of_mem _ hm)) hg' hnl'
              · rw [if_neg hlt2] at h
                injection h with h1 h2
                exact Except.noConfusion h1
          · rw [if_neg hin2] at h
            have hi : i < cur.length := (hJ k i hidx).1
            have hg' : (cur ++ [it]).get? i = some r := by
              rw [List.get?_append hi]
              exact hg
            have hnl' : noLaterBearing (cur ++ [it]) i k := by
              intro j it' hij hgj
              by_cases hjlt : j < cur.length
              · rw [List.get?_append hjlt] at hgj
                exact hnl j it' hij hgj
              · have hj2 : j < (cur ++ [it]).length := get?_some_lt hgj
                have hjeq : j = cur.length := by
                  simp at hj2
                  omega
                subst hjeq
                rw [List.get?_concat_length] at hgj
                injection hgj with hgj
                intro hbk
                have hbk' : bears it k := by rw [hgj]; exact hbk
                exact hk2k (bears_fun hbit2 hbk')
            exact ih _ _ s1 kps1 r h (idxConsistent_append hJ)
              (fun it2 hm => hnb it2 (List.mem_cons_of_mem _ hm)) hg' hnl'

theorem import_am_inversion (st : KPFS) (batch : List Item) (mode : String)
    (s : Summary) (st' : KPFS)
    (hm : mode = "append" ∨ mode = "merge")
    (h : import_from_file st (ImportPayload.items batch) mode = (Except.ok s, st')) :
    ∃ eset imap s0 idx,
      buildKpidSet st.kps = Except.ok eset ∧
      buildIdxMap 0 st.kps = Except.ok imap ∧
      importLoop mode eset imap batch st.kps
          { added := 0, updated := 0, skipped := 0, total := 0 }
        = (Except.ok s0, st'.kps) ∧
      build_index st'.kps = Except.ok idx ∧
      s = { s0 with total := st'.kps.length } ∧
      st'.kp_index = idx ∧ st'.file = st'.kps := by
  have hnr : ¬ mode = "replace" := by
    rcases hm with hm | hm <;> rw [hm] <;> decide
  simp only [import_from_file] at h
  rw [if_neg hnr, if_pos hm] at h
  cases heset : buildKpidSet st.kps with
  | error e =>
    rw [heset] at h
    dsimp only at h
    injection h with h1 h2
    exact Except.noConfusion h1
  | ok eset =>
    rw [heset] at h
    dsimp only at h
    cases himap : buildIdxMap 0 st.kps with
    | error e =>
      rw [himap] at h
      dsimp only at h
      injection h with h1 h2
      exact Except.noConfusion h1
    | ok imap =>
      rw [himap] at h
      dsimp only at h
      cases hloop : importLoop mode eset imap batch st.kps
          { added := 0, updated := 0, skipped := 0, total := 0 } with
      | mk res kps1 =>
        rw [hloop] at h
        cases res with
        | error e =>
          dsimp only at h
          injection h with h1 h2
          exact Except.noConfusion h1
        | ok s0 =>
          dsimp only at h
          unfold finishImport at h
          cases hbi : build_index kps1 with
          | error e =>
            rw [hbi] at h
            dsimp only at h
            injection h with h1 h2
            exact Except.noConfusion h1
          | ok idx =>
            rw [hbi] at h
            dsimp only at h
            injection h with h1 h2
            injection h1 with h1
            subst h2
            refine ⟨eset, imap, s0, idx, rfl, rfl, hloop, hbi, ?_, rfl, rfl⟩
            rw [← h1]

theorem counts_bridge (base : List Item) (eset : List String)
    (hes : buildKpidSet base = Except.ok eset) (bs : List Item) :
    bs.countP (isPreE eset) = bs.countP (isPreRec base) ∧
    bs.countP (isAddE eset) = bs.countP (isAddRec base) := by
  have hmem := buildKpidSet_mem base eset hes
  constructor
  · apply countP_congr_mem
    intro it _
    unfold isPreE isPreRec
    cases truthyKpid it with
    | none => rfl
    | some k => exact decide_eq_decide.mpr (hmem k)
  · apply countP_congr_mem
    intro it _
    unfold isAddE isAddRec
    cases truthyKpid it with
    | none => rfl
    | some k =>
      dsimp only
      rw [decide_eq_decide.mpr (not_congr (hmem k)), decide_not]

theorem isAddE_truthy {eset : List String} {it : Item}
    (h : isAddE eset it = true) : (truthyKpid it).isSome := by
  unfold isAddE at h
  cases htr : truthyKpid it with
  | none => rw [htr] at h; exact Bool.noConfusion h
  | some k => simp

theorem imap_bound (base : List Item) (imap : List (String × Nat))
    (himap : buildIdxMap 0 base = Except.ok imap) :
    ∀ k i, dictGet imap k = some i → i < base.length := by
  intro k i hg
  rw [dictGet_buildIdxMap base 0 imap himap k] at hg
  have hc := lastIdxFrom_some base 0 k i hg
  omega

/-- C8 (amended): after an import in append mode that returns normally, the
collection is the old collection with new records appended, so every record
that was in the store before the call is unchanged at its position;
'skipped' equals the count of batch entries whose (truthy) kpid pre-existed
plus the count of entries lacking a truthy kpid, and 'added' equals the
count of entries with a truthy kpid that did not pre-exist. -/
theorem kp_append_import_frame (st : KPFS) (batch : List Item) (s : Summary)
    (st' : KPFS)
    (h : import_from_file st (ImportPayload.items batch) "append"
      = (Except.ok s, st')) :
    (∃ ext, st'.kps = st.kps ++ ext) ∧
    s.skipped = batch.countP (isPreRec st.kps) + batch.countP isNoKpid ∧
    s.added = batch.countP (isAddRec st.kps) ∧
    s.updated = 0 ∧
    s.total = st'.kps.length := by
  obtain ⟨eset, imap, s0, idx, heset, himap, hloop, hbi, hs, hidx, hfile⟩ :=
    import_am_inversion st batch "append" s st' (Or.inl rfl) h
  obtain ⟨ha, hu, hsk, ht⟩ :=
    importLoop_counts "append" eset imap batch st.kps _ s0 st'.kps hloop
  dsimp only at ha hu hsk ht
  obtain ⟨hbp, hba⟩ := counts_bridge st.kps eset heset batch
  obtain ⟨modif, hkps, hlen, happ, _⟩ :=
    importLoop_struct "append" eset imap st.kps.length
      (imap_bound st.kps imap himap) batch st.kps _ s0 st'.kps
      (Nat.le_refl _) hloop
  rw [if_pos rfl] at hu hsk
  refine ⟨⟨batch.filter (isAddE eset), by rw [hkps, happ rfl]⟩, ?_, ?_, ?_, ?_⟩
  · rw [hs]
    dsimp only
    rw [hsk, hbp]
    omega
  · rw [hs]
    dsimp only
    rw [ha, hba]
    omega
  · rw [hs]
    dsimp only
    rw [hu]
  · rw [hs]

/-- C8 witness: a concrete append import over a store holding the record A
and a batch holding a changed A and a new C: A is skipped and unchanged, C
is added. -/
theorem kp_append_import_frame_witness :
    import_from_file
        ⟨[Item.dict ⟨some "A", none, some "old", none, none⟩],
         [("A", Item.dict ⟨some "A", none, some "old", none, none⟩)],
         [Item.dict ⟨some "A", none, some "old", none, none⟩]⟩
        (ImportPayload.items
          [Item.dict ⟨some "A", none, some "new", none, none⟩,
           Item.dict ⟨some "C", none, none, none, none⟩]) "append"
      = (Except.ok ⟨1, 0, 1, 2⟩,
         ⟨[Item.dict ⟨some "A", none, some "old", none, none⟩,
           Item.dict ⟨some "C", none, none, none, none⟩],
          [("A", Item.dict ⟨some "A", none, some "old", none, none⟩),
           ("C", Item.dict ⟨some "C", none, none, none, none⟩)],
          [Item.dict ⟨some "A", none, some "old", none, none⟩,
           Item.dict ⟨some "C", none, none, none, none⟩]⟩) ∧
    (∃ ext,
      (⟨[Item.dict ⟨some "A", none, some "old", none, none⟩,
         Item.dict ⟨some "C", none, none, none, none⟩],
        [("A", Item.dict ⟨some "A", none, some "old", none, none⟩),
         ("C", Item.dict ⟨some "C", none, none, none, none⟩)],
        [Item.dict ⟨some "A", none, some "old", none, none⟩,
         Item.dict ⟨some "C", none, none, none, none⟩]⟩ : KPFS).kps
      = (⟨[Item.dict ⟨some "A", none, some "old", none, none⟩],
          [("A", Item.dict ⟨some "A", none, some "old", none, none⟩)],
          [Item.dict ⟨some "A", none, some "old", none, none⟩]⟩ : KPFS).kps ++ ext) := by
  have h : import_from_file
        ⟨[Item.dict ⟨some "A", none, some "old", none, none⟩],
         [("A", Item.dict ⟨some "A", none, some "old", none, none⟩)],
         [Item.dict ⟨some "A", none, some "old", none, none⟩]⟩
        (ImportPayload.items
          [Item.dict ⟨some "A", none, some "new", none, none⟩,
           Item.dict ⟨some "C", none, none, none, none⟩]) "append"
      = (Except.ok ⟨1, 0, 1, 2⟩,
         ⟨[Item.dict ⟨some "A", none, some "old", none, none⟩,
           Item.dict ⟨some "C", none, none, none, none⟩],
          [("A", Item.dict ⟨some "A", none, some "old", none, none⟩),
           ("C", Item.dict ⟨some "C", none, none, none, none⟩)],
          [Item.dict ⟨some "A", none, some "old", none, none⟩,
           Item.dict ⟨some "C", none, none, none, none⟩]⟩) := by decide
  exact ⟨h, (kp_append_import_frame _ _ _ _ h).1⟩

/-- C8 counterexample: a batch entry lacking a kpid also increments
'skipped', so 'skipped' does not equal the count of batch entries whose
kpid pre-existed (that count is 0 here while skipped is 1). -/
theorem kp_append_skipped_count_cex :
    import_from_file ⟨[], [], []⟩
        (ImportPayload.items [Item.dict ⟨none, none, some "x", none, none⟩]) "append"
      = (Except.ok ⟨0, 0, 1, 0⟩, ⟨[], [], []⟩) ∧
    List.countP (isPreRec []) [Item.dict ⟨none, none, some "x", none, none⟩] = 0 ∧
    Summary.skipped ⟨0, 0, 1, 0⟩ ≠ 0 := by
  refine ⟨by decide, by decide, by decide⟩

/-- C2 (amended): in append and merge modes every incoming record lacking a
truthy kpid is skipped: on a normally returning call, 'skipped' counts all
such records (plus, in append mode, the pre-existing ones), and every
position of the resulting collection holds either the record that was at
that position before the call or a batch record with a truthy kpid — so a
record lacking a kpid never enters the collection. In replace mode the
incoming list is installed wholesale instead. -/
theorem kp_import_missing_kpid_skip (st : KPFS) (batch : List Item)
    (mode : String) (s : Summary) (st' : KPFS)
    (hm : mode = "append" ∨ mode = "merge")
    (h : import_from_file st (ImportPayload.items batch) mode = (Except.ok s, st')) :
    s.skipped = batch.countP isNoKpid
      + (if mode = "append" then batch.countP (isPreRec st.kps) else 0) ∧
    (∀ j it, st'.kps.get? j = some it →
      st.kps.get? j = some it ∨ (it ∈ batch ∧ (truthyKpid it).isSome)) := by
  obtain ⟨eset, imap, s0, idx, heset, himap, hloop, hbi, hs, hidx, hfile⟩ :=
    import_am_inversion st batch mode s st' hm h
  obtain ⟨ha, hu, hsk, ht⟩ :=
    importLoop_counts mode eset imap batch st.kps _ s0 st'.kps hloop
  dsimp only at ha hu hsk ht
  obtain ⟨hbp, hba⟩ := counts_bridge st.kps eset heset batch
  obtain ⟨modif, hkps, hlen, happ, hpos⟩ :=
    importLoop_struct mode eset imap st.kps.length
      (imap_bound st.kps imap himap) batch st.kps _ s0 st'.kps
      (Nat.le_refl _) hloop
  constructor
  · rw [hs]
    dsimp only
    rw [hsk]
    rcases hm with hm | hm
    · rw [hm]
      rw [if_pos rfl, if_pos rfl, hbp]
      omega
    · rw [hm]
      rw [if_neg (by decide : ¬ ("merge" = "append")),
          if_neg (by decide : ¬ ("merge" = "append"))]
      omega
  · intro j it hg
    rw [hkps] at hg
    by_cases hj : j < modif.length
    · rw [List.get?_append hj] at hg
      rcases hpos j (by omega) with h1 | ⟨_, it2, hm2, h2, h3⟩
      · rw [h1] at hg
        exact Or.inl hg
      · rw [h2] at hg
        injection hg with hg
        rw [hg] at hm2 h3
        exact Or.inr ⟨hm2, h3⟩
    · rw [List.get?_append_right (by omega)] at hg
      have hmem : it ∈ batch.filter (isAddE eset) := List.get?_mem hg
      obtain ⟨hmb, hadd⟩ := List.mem_filter.mp hmem
      exact Or.inr ⟨hmb, isAddE_truthy hadd⟩

/-- C2 witness: an append import whose batch is a single record lacking a
kpid: the record is counted as skipped and the collection stays empty. -/
theorem kp_import_missing_kpid_skip_witness :
    ("append" = "append" ∨ "append" = "merge") ∧
    import_from_file ⟨[], [], []⟩
        (ImportPayload.items [Item.dict ⟨none, none, some "y", none, none⟩]) "append"
      = (Except.ok ⟨0, 0, 1, 0⟩, ⟨[], [], []⟩) ∧
    Summary.skipped ⟨0, 0, 1, 0⟩
      = List.countP isNoKpid [Item.dict ⟨none, none, some "y", none, none⟩]
        + (if "append" = "append"
           then List.countP (isPreRec ([] : List Item))
                  [Item.dict ⟨none, none, some "y", none, none⟩]
           else 0) := by
  have h : import_from_file ⟨[], [], []⟩
        (ImportPayload.items [Item.dict ⟨none, none, some "y", none, none⟩]) "append"
      = (Except.ok ⟨0, 0, 1, 0⟩, ⟨[], [], []⟩) := by decide
  exact ⟨Or.inl rfl, h,
    (kp_import_missing_kpid_skip _ _ _ _ _ (Or.inl rfl) h).1⟩

/-- C1 (amended): for a merge-mode import that returns normally and whose
batch carries pairwise distinct truthy kpids, every incoming record whose
kpid was already present is written over the existing record in place
(incrementing 'updated'), every incoming record with a truthy kpid not
present is appended (incrementing 'added'), records without a truthy kpid
are skipped, 'total' equals the post-import collection size, the collection
grows exactly by 'added', and afterwards get_kp_by_id returns, for each
batch record whose kpid pre-existed, that incoming record. -/
theorem kp_merge_import_spec (st : KPFS) (batch : List Item) (s : Summary)
    (st' : KPFS)
    (hnd : (batch.filterMap truthyKpid).Nodup)
    (h : import_from_file st (ImportPayload.items batch) "merge"
      = (Except.ok s, st')) :
    s.updated = batch.countP (isPreRec st.kps) ∧
    s.added = batch.countP (isAddRec st.kps) ∧
    s.skipped = batch.countP isNoKpid ∧
    s.total = st'.kps.length ∧
    st'.kps.length = st.kps.length + s.added ∧
    (∀ it k, it ∈ batch → truthyKpid it = some k → hasKpid st.kps k →
      get_kp_by_id st' k = some it) := by
  obtain ⟨eset, imap, s0, idx, heset, himap, hloop, hbi, hs, hidx, hfile⟩ :=
    import_am_inversion st batch "merge" s st' (Or.inr rfl) h
  obtain ⟨ha, hu, hsk, ht⟩ :=
    importLoop_counts "merge" eset imap batch st.kps _ s0 st'.kps hloop
  dsimp only at ha hu hsk ht
  rw [if_neg (by decide : ¬ ("merge" = "append"))] at hu hsk
  obtain ⟨hbp, hba⟩ := counts_bridge st.kps eset heset batch
  obtain ⟨modif, hkps, hlen, _, _⟩ :=
    importLoop_struct "merge" eset imap st.kps.length
      (imap_bound st.kps imap himap) batch st.kps _ s0 st'.kps
      (Nat.le_refl _) hloop
  have hmem := buildKpidSet_mem st.kps eset heset
  refine ⟨?_, ?_, ?_, ?_, ?_, ?_⟩
  · rw [hs]
    dsimp only
    rw [hu, hbp]
    omega
  · rw [hs]
    dsimp only
    rw [ha, hba]
    omega
  · rw [hs]
    dsimp only
    rw [hsk]
    omega
  · rw [hs]
  · have hlenEq : st'.kps.length = modif.length + (batch.filter (isAddE eset)).length := by
      rw [hkps, List.length_append]
    have hcount : (batch.filter (isAddE eset)).length = batch.countP (isAddE eset) :=
      (List.countP_eq_length_filter _ _).symm
    have hsadd : s.added = s0.added := by rw [hs]
    omega
  · intro it k hit htr hhk
    have hin : k ∈ eset := (hmem k).mpr hhk
    have himapget : dictGet imap k = lastIdxFrom 0 st.kps k :=
      dictGet_buildIdxMap st.kps 0 imap himap k
    cases hli : lastIdxFrom 0 st.kps k with
    | none =>
      obtain ⟨it0, hm0, hb0⟩ := hhk
      exact absurd hb0 ((lastIdxFrom_none st.kps 0 k).mp hli it0 hm0)
    | some i =>
      have hidxk : dictGet imap k = some i := by rw [himapget, hli]
      obtain ⟨_, hilen, ⟨it0, hgi0, hbi0⟩, hlast⟩ := lastIdxFrom_some st.kps 0 k i hli
      have hgi0' : st.kps.get? i = some it0 := by simpa using hgi0
      have hnl0 : noLaterBearing st.kps i k := by
        intro j it' hij hgj hbj
        have := hlast j it' hgj hbj
        omega
      have hJ0 : idxConsistent imap st.kps := by
        intro k2 i2 hg2
        rw [dictGet_buildIdxMap st.kps 0 imap himap k2] at hg2
        obtain ⟨_, hlt2, ⟨it2, hg2', hb2⟩, _⟩ := lastIdxFrom_some st.kps 0 k2 i2 hg2
        exact ⟨by omega, it2, by simpa using hg2', hb2⟩
      obtain ⟨bs1, bs2, hb⟩ := List.mem_iff_append.mp hit
      rw [hb] at hnd
      rw [List.filterMap_append] at hnd
      have hfc : (it :: bs2).filterMap truthyKpid = k :: bs2.filterMap truthyKpid := by
        simp only [List.filterMap_cons, htr]
      rw [hfc] at hnd
      have hdisj := List.disjoint_of_nodup_append hnd
      have hk_notin_bs1 : ∀ it2 ∈ bs1, ∀ k2, truthyKpid it2 = some k2 → k2 ≠ k := by
        intro it2 hm2 k2 htr2 hk2
        subst hk2
        exact hdisj (List.mem_filterMap.mpr ⟨it2, hm2, htr2⟩) (List.mem_cons_self _ _)
      have hnd2 : (k :: bs2.filterMap truthyKpid).Nodup := ((List.nodup_append.mp hnd).2).1
      have hk_notin_bs2 : ∀ it2 ∈ bs2, ∀ k2, truthyKpid it2 = some k2 → k2 ≠ k := by
        intro it2 hm2 k2 htr2 hk2
        subst hk2
        exact (List.nodup_cons.mp hnd2).1 (List.mem_filterMap.mpr ⟨it2, hm2, htr2⟩)
      rw [hb] at hloop
      rw [importLoop_comp] at hloop
      cases hl1 : importLoop "merge" eset imap bs1 st.kps
          { added := 0, updated := 0, skipped := 0, total := 0 } with
      | mk res1 curA =>
        rw [hl1] at hloop
        cases res1 with
        | error e =>
          dsimp only at hloop
          injection hloop with h1 h2
          exact Except.noConfusion h1
        | ok sA =>
          dsimp only at hloop
          have hJA : idxConsistent imap curA :=
            importLoop_idxConsistent "merge" eset imap bs1 st.kps _ sA curA hl1 hJ0
          obtain ⟨hgA, hnlA⟩ :=
            importLoop_frame eset imap k i hidxk bs1 st.kps _ sA curA it0
              hl1 hJ0 hk_notin_bs1 hgi0' hnl0
          obtain ⟨hsub, hgetk, hne⟩ := truthyKpid_some htr
          simp only [importLoop] at hloop
          rw [hgetk] at hloop
          dsimp only at hloop
          rw [if_neg hne, if_pos hin,
              if_neg (by decide : ¬ ("merge" = "append")), hidxk] at hloop
          dsimp only at hloop
          have hiltA : i < curA.length := (hJA k i hidxk).1
          rw [if_pos hiltA] at hloop
          have hJB : idxConsistent imap (curA.set i it) :=
            idxConsistent_set hJA hidxk hsub
          have hgB : (curA.set i it).get? i = some it :=
            List.get?_set_eq_of_lt it hiltA
          have hnlB : noLaterBearing (curA.set i it) i k := by
            intro j it' hij hgj
            by_cases hje : i = j
            · exact absurd hij (by omega)
            · rw [List.get?_set_ne it curA hje] at hgj
              exact hnlA j it' hij hgj
          obtain ⟨hgF, hnlF⟩ :=
            importLoop_frame eset imap k i hidxk bs2 (curA.set i it) _ s0
              st'.kps it hloop hJB hk_notin_bs2 hgB hnlB
          have hlast' : lastRecWith st'.kps k = some it :=
            lastRecWith_of_pos st'.kps k i it hgF hsub hnlF
          unfold get_kp_by_id
          rw [hidx, dictGet_build_index st'.kps idx hbi k]
          exact hlast'

/-- C1 witness: a store holding record A, merged with a batch carrying an
updated A and a new C: updated is 1, added is 1, total is 2, and the lookup
of A afterwards returns the incoming record. -/
theorem kp_merge_import_spec_witness :
    ([Item.dict ⟨some "A", none, some "new", none, none⟩,
      Item.dict ⟨some "C", none, none, none, none⟩].filterMap truthyKpid).Nodup ∧
    import_from_file
        ⟨[Item.dict ⟨some "A", none, some "old", none, none⟩],
         [("A", Item.dict ⟨some "A", none, some "old", none, none⟩)],
         [Item.dict ⟨some "A", none, some "old", none, none⟩]⟩
        (ImportPayload.items
          [Item.dict ⟨some "A", none, some "new", none, none⟩,
           Item.dict ⟨some "C", none, none, none, none⟩]) "merge"
      = (Except.ok ⟨1, 1, 0, 2⟩,
         ⟨[Item.dict ⟨some "A", none, some "new", none, none⟩,
           Item.dict ⟨some "C", none, none, none, none⟩],
          [("A", Item.dict ⟨some "A", none, some "new", none, none⟩),
           ("C", Item.dict ⟨some "C", none, none, none, none⟩)],
          [Item.dict ⟨some "A", none, some "new", none, none⟩,
           Item.dict ⟨some "C", none, none, none, none⟩]⟩) ∧
    get_kp_by_id
        ⟨[Item.dict ⟨some "A", none, some "new", none, none⟩,
          Item.dict ⟨some "C", none, none, none, none⟩],
         [("A", Item.dict ⟨some "A", none, some "new", none, none⟩),
          ("C", Item.dict ⟨some "C", none, none, none, none⟩)],
         [Item.dict ⟨some "A", none, some "new", none, none⟩,
          Item.dict ⟨some "C", none, none, none, none⟩]⟩ "A"
      = some (Item.dict ⟨some "A", none, some "new", none, none⟩) := by
  have hnd : ([Item.dict ⟨some "A", none, some "new", none, none⟩,
      Item.dict ⟨some "C", none, none, none, none⟩].filterMap truthyKpid).Nodup := by decide
  have h : import_from_file
        ⟨[Item.dict ⟨some "A", none, some "old", none, none⟩],
         [("A", Item.dict ⟨some "A", none, some "old", none, none⟩)],
         [Item.dict ⟨some "A", none, some "old", none, none⟩]⟩
        (ImportPayload.items
          [Item.dict ⟨some "A", none, some "new", none, none⟩,
           Item.dict ⟨some "C", none, none, none, none⟩]) "merge"
      = (Except.ok ⟨1, 1, 0, 2⟩,
         ⟨[Item.dict ⟨some "A", none, some "new", none, none⟩,
           Item.dict ⟨some "C", none, none, none, none⟩],
          [("A", Item.dict ⟨some "A", none, some "new", none, none⟩),
           ("C", Item.dict ⟨some "C", none, none, none, none⟩)],
          [Item.dict ⟨some "A", none, some "new", none, none⟩,
           Item.dict ⟨some "C", none, none, none, none⟩]⟩) := by decide
  exact ⟨hnd, h,
    (kp_merge_import_spec _ _ _ _ hnd h).2.2.2.2.2
      (Item.dict ⟨some "A", none, some "new", none, none⟩) "A"
      (by decide) (by decide) (by decide)⟩

/-- C1 counterexample: when the batch bears the same kpid twice, both
entries count as updated but the lookup afterwards returns only the later
one, so the claim that get returns the fields of each overwritten incoming
entry fails as universally stated. -/
theorem kp_merge_import_dup_kpid_cex :
    import_from_file
        ⟨[Item.dict ⟨some "A", none, some "old", none, none⟩],
         [("A", Item.dict ⟨some "A", none, some "old", none, none⟩)],
         [Item.dict ⟨some "A", none, some "old", none, none⟩]⟩
        (ImportPayload.items
          [Item.dict ⟨some "A", none, some "t1", none, none⟩,
           Item.dict ⟨some "A", none, some "t2", none, none⟩]) "merge"
      = (Except.ok ⟨0, 2, 0, 1⟩,
         ⟨[Item.dict ⟨some "A", none, some "t2", none, none⟩],
          [("A", Item.dict ⟨some "A", none, some "t2", none, none⟩)],
          [Item.dict ⟨some "A", none, some "t2", none, none⟩]⟩) ∧
    truthyKpid (Item.dict ⟨some "A", none, some "t1", none, none⟩) = some "A" ∧
    hasKpid [Item.dict ⟨some "A", none, some "old", none, none⟩] "A" ∧
    get_kp_by_id
        ⟨[Item.dict ⟨some "A", none, some "t2", none, none⟩],
         [("A", Item.dict ⟨some "A", none, some "t2", none, none⟩)],
         [Item.dict ⟨some "A", none, some "t2", none, none⟩]⟩ "A"
      ≠ some (Item.dict ⟨some "A", none, some "t1", none, none⟩) := by
  refine ⟨by decide, by decide, by decide, by decide⟩

/-- C10 (amended): after every store construction that returns normally and
after every import_from_file call that returns normally (in any mode), the
keyed lookup kp_index is exactly the map sending each kpid to the last
record in the collection bearing that kpid, so get_kp_by_id returns that
record when one exists and an absence value otherwise. -/
theorem kp_index_sync :
    (∀ (f : FileContent Item) (st : KPFS), kp_construct f = Except.ok st →
      ∀ k, get_kp_by_id st k = lastRecWith st.kps k) ∧
    (∀ (st : KPFS) (p : ImportPayload) (mode : String) (s : Summary) (st' : KPFS),
      import_from_file st p mode = (Except.ok s, st') →
      ∀ k, get_kp_by_id st' k = lastRecWith st'.kps k) := by
  constructor
  · intro f st h k
    unfold kp_construct at h
    cases hl : load_data f with
    | error e =>
      rw [hl] at h
      exact Except.noConfusion h
    | ok items =>
      rw [hl] at h
      dsimp only at h
      cases hbi : build_index items with
      | error e =>
        rw [hbi] at h
        dsimp only at h
        exact Except.noConfusion h
      | ok idx =>
        rw [hbi] at h
        dsimp only at h
        injection h with h
        rw [← h]
        exact dictGet_build_index items idx hbi k
  · intro st p mode s st' h k
    cases p with
    | parseFail =>
      simp only [import_from_file] at h
      injection h with h1 h2
      exact Except.noConfusion h1
    | notList =>
      simp only [import_from_file] at h
      injection h with h1 h2
      exact Except.noConfusion h1
    | items new_kps =>
      by_cases hrep : mode = "replace"
      · simp only [import_from_file] at h
        rw [if_pos hrep] at h
        unfold finishImport at h
        cases hbi : build_index new_kps with
        | error e =>
          rw [hbi] at h
          dsimp only at h
          injection h with h1 h2
          exact Except.noConfusion h1
        | ok idx =>
          rw [hbi] at h
          dsimp only at h
          injection h with h1 h2
          rw [← h2]
          exact dictGet_build_index new_kps idx hbi k
      · by_cases ham : mode = "append" ∨ mode = "merge"
        · obtain ⟨eset, imap, s0, idx, _, _, _, hbi, _, hidx, _⟩ :=
            import_am_inversion st new_kps mode s st' ham h
          unfold get_kp_by_id
          rw [hidx]
          exact dictGet_build_index st'.kps idx hbi k
        · simp only [import_from_file] at h
          rw [if_neg hrep, if_neg ham] at h
          injection h with h1 h2
          exact Except.noConfusion h1

/-- C10 witness: a concrete construction from a one-record file, on which
the index agrees with the last-record map. -/
theorem kp_index_sync_witness :
    kp_construct (FileContent.wellFormed [Item.dict ⟨some "A", none, none, none, none⟩])
      = Except.ok ⟨[Item.dict ⟨some "A", none, none, none, none⟩],
          [("A", Item.dict ⟨some "A", none, none, none, none⟩)],
          [Item.dict ⟨some "A", none, none, none, none⟩]⟩ ∧
    get_kp_by_id ⟨[Item.dict ⟨some "A", none, none, none, none⟩],
          [("A", Item.dict ⟨some "A", none, none, none, none⟩)],
          [Item.dict ⟨some "A", none, none, none, none⟩]⟩ "A"
      = lastRecWith [Item.dict ⟨some "A", none, none, none, none⟩] "A" :=
  ⟨rfl, kp_index_sync.1 (FileContent.wellFormed [Item.dict ⟨some "A", none, none, none, none⟩]) _ rfl "A"⟩

/-- C10 counterexample: an import_from_file call that raises mid-batch has
already mutated the collection but not the index, so after that call the
keyed lookup is not the last-record map: the claim quantified over every
call (not only the normally returning ones) is false. -/
theorem kp_index_stale_after_error_cex :
    import_from_file ⟨[], [], []⟩
        (ImportPayload.items [Item.dict ⟨some "A", none, none, none, none⟩, Item.nonDict 0]) "merge"
      = (Except.error PyErr.attributeError,
         ⟨[Item.dict ⟨some "A", none, none, none, none⟩], [], []⟩) ∧
    get_kp_by_id ⟨[Item.dict ⟨some "A", none, none, none, none⟩], [], []⟩ "A" = none ∧
    lastRecWith [Item.dict ⟨some "A", none, none, none, none⟩] "A"
      = some (Item.dict ⟨some "A", none, none, none, none⟩) := by
  refine ⟨by decide, rfl, by decide⟩

/-- C4 (amended): the knowledge point store loads an empty collection from an
absent or empty backing file and raises ValueError (the ParseError of the
spec) on malformed content; the question store loads an empty collection from
an absent or empty backing file but self-heals malformed content to an empty
collection instead of raising, so the parse-failure policy of the two stores
is not uniform. -/
theorem load_parse_error_policy :
    load_data FileContent.absent = Except.ok [] ∧
    load_data FileContent.emptyFile = Except.ok [] ∧
    load_data FileContent.malformed = Except.error PyErr.valueError ∧
    (∀ l : List Item, load_data (FileContent.wellFormed l) = Except.ok l) ∧
    q_load_database FileContent.absent = Except.ok [] ∧
    q_load_database FileContent.emptyFile = Except.ok [] ∧
    q_load_database FileContent.malformed = Except.ok [] ∧
    (∀ l : List QRecord, q_load_database (FileContent.wellFormed l) = Except.ok l) :=
  ⟨rfl, rfl, rfl, fun _ => rfl, rfl, rfl, rfl, fun _ => rfl⟩

/-- C4 counterexample: on malformed backing content the question store loads
an empty collection instead of failing, while the knowledge point store
raises; the claimed uniform ParseError behaviour is false for the question
store. -/
theorem question_load_selfheal_cex :
    q_load_database FileContent.malformed = Except.ok [] ∧
    q_load_database FileContent.malformed ≠ Except.error PyErr.valueError ∧
    load_data FileContent.malformed = Except.error PyErr.valueError :=
  ⟨rfl, fun h => Except.noConfusion h, rfl⟩

/-- C5 (amended): importing a record-shaped payload into the question store
appends a record carrying a freshly generated questionId (overwriting any
caller-supplied value) and a stamped import timestamp
(importTimestampUTC); the structureType, parentId and stem fields are
carried over unchanged, so an absent structureType or parentId is not
defaulted. -/
theorem question_import_stamps (questions : List QRecord) (r : QRecord)
    (newId ts : String) :
    ∃ r', import_question_from_file questions (QImportPayload.record r) newId ts
        = (Except.ok (some r'), questions ++ [r']) ∧
      r'.questionId = some newId ∧
      r'.importTimestampUTC = some ts ∧
      r'.structureType = r.structureType ∧
      r'.parentId = r.parentId ∧
      r'.stem = r.stem :=
  ⟨_, rfl, rfl, rfl, rfl, rfl, rfl⟩

/-- C5 counterexample: importing a record without a structureType stores it
with structureType still absent, not defaulted to ATOMIC, refuting the
defaulting part of the claim. -/
theorem question_import_no_default_cex :
    (import_question_from_file [] (QImportPayload.record ⟨none, none, none, some "2+2", none⟩) "u1" "t1").2
      = [⟨some "u1", none, none, some "2+2", some "t1"⟩] ∧
    QRecord.structureType ⟨some "u1", none, none, some "2+2", some "t1"⟩ ≠ some "ATOMIC" :=
  ⟨rfl, fun h => Option.noConfusion h⟩

/-- C6 (code bug): importing a one-element sequence wrapping a record raises
TypeError at the questionId item assignment and imports nothing, while
importing the record directly succeeds; the batch and singular forms are not
equivalent because the code under src handles only a single dict payload
even though its caller in main.py documents and expects batch support. -/
theorem question_import_list_payload_raises :
    import_question_from_file [] (QImportPayload.arr [⟨none, none, none, some "2+2", none⟩]) "u0" "t0"
      = (Except.error PyErr.typeError, []) ∧
    (import_question_from_file [] (QImportPayload.record ⟨none, none, none, some "2+2", none⟩) "u0" "t0").1
      = Except.ok (some ⟨some "u0", none, none, some "2+2", some "t0"⟩) :=
  ⟨rfl, rfl⟩

/-- C3 (amended): knowledge point import fails with TypeError (the
ValidationError of the spec) when the parsed payload is not a list, and with
ValueError when the file cannot be read or parsed, and in both cases it
aborts before any mutation: the returned state is exactly the input state.
Element-level record-shapedness is not validated up front. -/
theorem kp_import_nonlist_abort (st : KPFS) (mode : String) :
    import_from_file st ImportPayload.notList mode = (Except.error PyErr.typeError, st) ∧
    import_from_file st ImportPayload.parseFail mode = (Except.error PyErr.valueError, st) :=
  ⟨rfl, rfl⟩

/-- C3 counterexample: a payload that is a list containing a non-record value
is not rejected before mutation: in replace mode the collection and the
backing file are overwritten with the non-record value and only the
subsequent index rebuild raises, so the state after the failing call differs
from the state before it. -/
theorem kp_import_nonrecord_mutates_cex :
    import_from_file ⟨[], [], []⟩ (ImportPayload.items [Item.nonDict 0]) "replace"
      = (Except.error PyErr.typeError, ⟨[Item.nonDict 0], [], [Item.nonDict 0]⟩) ∧
    (⟨[Item.nonDict 0], [], [Item.nonDict 0]⟩ : KPFS) ≠ ⟨[], [], []⟩ := by
  refine ⟨rfl, by decide⟩

/-- C2 counterexample: in replace mode a record lacking a kpid is not
skipped: the incoming list is installed wholesale, the record enters the
collection and the persisted file, and the call then fails rebuilding the
index with KeyError instead of counting the record as skipped. -/
theorem kp_replace_missing_kpid_cex :
    import_from_file ⟨[], [], []⟩
        (ImportPayload.items [Item.dict ⟨none, none, some "x", none, none⟩]) "replace"
      = (Except.error PyErr.keyError,
         ⟨[Item.dict ⟨none, none, some "x", none, none⟩], [],
          [Item.dict ⟨none, none, some "x", none, none⟩]⟩) ∧
    truthyKpid (Item.dict ⟨none, none, some "x", none, none⟩) = none :=
  ⟨rfl, rfl⟩

theorem linkedR_append :
    ∀ (xs : List Item) (p c : Item), linkedR xs → xs.getLast? = some p →
      childOf c p → linkedR (xs ++ [c]) := by
  intro xs
  induction xs with
  | nil =>
    intro p c _ hl
    simp at hl
  | cons a xs' ih =>
    intro p c hx hl hc
    cases xs' with
    | nil =>
      simp at hl
      subst hl
      exact ⟨hc, trivial⟩
    | cons b xs'' =>
      have hx' : childOf b a ∧ linkedR (b :: xs'') := hx
      have hl' : (b :: xs'').getLast? = some p := hl
      exact ⟨hx'.1, ih p c hx'.2 hl' hc⟩

theorem linkedU_cons_reverse :
    ∀ (l : List Item) (a : Item), linkedU (a :: l) → linkedR (l.reverse ++ [a]) := by
  intro l
  induction l with
  | nil =>
    intro a _
    exact trivial
  | cons b l' ih =>
    intro a hu
    have hu' : childOf a b ∧ linkedU (b :: l') := hu
    have hstep : linkedR (l'.reverse ++ [b]) := ih b hu'.2
    have hlast : (l'.reverse ++ [b]).getLast? = some b := List.getLast?_concat _
    have := linkedR_append (l'.reverse ++ [b]) b a hstep hlast hu'.1
    simpa [List.reverse_cons, List.append_assoc] using this

theorem linkedU_reverse (l : List Item) (hu : linkedU l) : linkedR l.reverse := by
  cases l with
  | nil => exact trivial
  | cons a l' =>
    rw [List.reverse_cons]
    exact linkedU_cons_reverse l' a hu

theorem ancestryLoop_spec (st : KPFS) (rank : String → Nat)
    (hsync : ∀ k2, get_kp_by_id st k2 = lastRecWith st.kps k2)
    (hwf : ∀ it ∈ st.kps, wfItem st.kps it = true)
    (hrank : ∀ r : KPRecord, Item.dict r ∈ st.kps →
      ∀ k p, r.kpid = some k → r.parentId = some p → rank p < rank k) :
    ∀ (fuel : Nat) (it : Item) (r : KPRecord) (kp : String),
      it = Item.dict r → r.kpid = some kp → it ∈ st.kps →
      rank kp < fuel →
      ∃ ch, ancestryLoop st fuel (some it) = Except.ok ch ∧
        ch.head? = some it ∧
        linkedU ch ∧
        (∃ rR : KPRecord, ch.getLast? = some (Item.dict rR) ∧ rR.parentId = none) := by
  intro fuel
  induction fuel with
  | zero =>
    intro it r kp h1 h2 h3 h4
    omega
  | succ fuel ih =>
    intro it r kp h1 h2 h3 h4
    subst h1
    have hw := hwf _ h3
    cases hp : r.parentId with
    | none =>
      refine ⟨[Item.dict r], ?_, rfl, trivial, ⟨r, rfl, hp⟩⟩
      simp [ancestryLoop, itemGetParentId, hp]
    | some p =>
      have hw' := hw
      simp only [wfItem, h2, hp, Bool.and_eq_true] at hw'
      have hhp : hasKpid st.kps p := by
        have := hw'.2
        exact of_decide_eq_true this
      obtain ⟨itp, hmp, hbp⟩ := hhp
      cases itp with
      | nonDict t => exact absurd hbp bears_nonDict
      | dict rp =>
        have hkp' : rp.kpid = some p := bears_dict.mp hbp
        have hpne : ¬ p = "" := by
          have hwp := hwf _ hmp
          simp only [wfItem, hkp', Bool.and_eq_true] at hwp
          simpa using hwp.1
        obtain ⟨itl, hitl⟩ :=
          (lastRecWith_isSome st.kps p).mpr ⟨Item.dict rp, hmp, hbp⟩
        obtain ⟨hml, hbl⟩ := lastRecWith_mem st.kps p itl hitl
        cases itl with
        | nonDict t => exact absurd hbl bears_nonDict
        | dict rl =>
          have hkl : rl.kpid = some p := bears_dict.mp hbl
          have hrdec : rank p < rank kp := hrank r h3 kp p h2 hp
          have hfl : rank p < fuel := by omega
          obtain ⟨ch', hch', hhead', hlink', rR, hlastr, hpr⟩ :=
            ih (Item.dict rl) rl p rfl hkl hml hfl
          refine ⟨Item.dict r :: ch', ?_, rfl, ?_, ?_⟩
          · simp only [ancestryLoop, itemGetParentId]
            rw [hp]
            dsimp only
            rw [if_neg hpne, hsync p, hitl, hch']
          · cases ch' with
            | nil => simp at hhead'
            | cons x ch'' =>
              simp at hhead'
              subst hhead'
              exact ⟨⟨r, rl, rfl, rfl, by rw [hp, hkl]⟩, hlink'⟩
          · refine ⟨rR, ?_, hpr⟩
            cases ch' with
            | nil => simp at hlastr
            | cons x ch'' => exact hlastr

/-- C7 (amended): for every kpid k present in a store whose index agrees
with its collection, provided every record is well formed (non-empty kpid;
parentId either null or the kpid of a present record) and the parent
relation is acyclic — witnessed by a rank that decreases from child to
parent — get_ancestry, run with enough fuel for the while loop, returns an
ordered sequence that starts at a record whose parentId is null, ends at
the record for k, and in which each consecutive pair (p, c) satisfies
c.parentId = p.kpid. -/
theorem kp_ancestry_chain (st : KPFS) (rank : String → Nat) (k : String)
    (fuel : Nat)
    (hindex : build_index st.kps = Except.ok st.kp_index)
    (hwf : ∀ it ∈ st.kps, wfItem st.kps it = true)
    (hrank : ∀ r : KPRecord, Item.dict r ∈ st.kps →
      ∀ k2 p, r.kpid = some k2 → r.parentId = some p → rank p < rank k2)
    (hk : hasKpid st.kps k)
    (hfuel : rank k < fuel) :
    ∃ chain it, get_ancestry st k fuel = Except.ok chain ∧
      get_kp_by_id st k = some it ∧
      chain.getLast? = some it ∧
      (∃ r0 : KPRecord, chain.head? = some (Item.dict r0) ∧ r0.parentId = none) ∧
      linkedR chain := by
  have hsync : ∀ k2, get_kp_by_id st k2 = lastRecWith st.kps k2 := fun k2 => by
    unfold get_kp_by_id
    exact dictGet_build_index st.kps st.kp_index hindex k2
  obtain ⟨itk, hitk⟩ := (lastRecWith_isSome st.kps k).mpr hk
  obtain ⟨hmk, hbk⟩ := lastRecWith_mem st.kps k itk hitk
  cases itk with
  | nonDict t => exact absurd hbk bears_nonDict
  | dict rk =>
    have hkk : rk.kpid = some k := bears_dict.mp hbk
    obtain ⟨ch, hch, hhead, hlinkU, rR, hlastr, hpr⟩ :=
      ancestryLoop_spec st rank hsync hwf hrank fuel (Item.dict rk) rk k
        rfl hkk hmk hfuel
    refine ⟨ch.reverse, Item.dict rk, ?_, ?_, ?_, ?_, ?_⟩
    · unfold get_ancestry
      rw [hsync k, hitk, hch]
    · rw [hsync k, hitk]
    · rw [List.getLast?_reverse]
      exact hhead
    · refine ⟨rR, ?_, hpr⟩
      rw [List.head?_reverse]
      exact hlastr
    · exact linkedU_reverse ch hlinkU

/-- C7 witness: a two-record store, root R and child B pointing at R; the
ancestry of B is the chain R then B. -/
theorem kp_ancestry_chain_witness :
    build_index [Item.dict ⟨some "R", none, none, none, none⟩,
                 Item.dict ⟨some "B", some "R", none, none, none⟩]
      = Except.ok [("R", Item.dict ⟨some "R", none, none, none, none⟩),
                   ("B", Item.dict ⟨some "B", some "R", none, none, none⟩)] ∧
    hasKpid [Item.dict ⟨some "R", none, none, none, none⟩,
             Item.dict ⟨some "B", some "R", none, none, none⟩] "B" ∧
    (∃ chain it,
      get_ancestry
        ⟨[Item.dict ⟨some "R", none, none, none, none⟩,
          Item.dict ⟨some "B", some "R", none, none, none⟩],
         [("R", Item.dict ⟨some "R", none, none, none, none⟩),
          ("B", Item.dict ⟨some "B", some "R", none, none, none⟩)],
         [Item.dict ⟨some "R", none, none, none, none⟩,
          Item.dict ⟨some "B", some "R", none, none, none⟩]⟩ "B" 2
        = Except.ok chain ∧
      get_kp_by_id
        ⟨[Item.dict ⟨some "R", none, none, none, none⟩,
          Item.dict ⟨some "B", some "R", none, none, none⟩],
         [("R", Item.dict ⟨some "R", none, none, none, none⟩),
          ("B", Item.dict ⟨some "B", some "R", none, none, none⟩)],
         [Item.dict ⟨some "R", none, none, none, none⟩,
          Item.dict ⟨some "B", some "R", none, none, none⟩]⟩ "B" = some it ∧
      chain.getLast? = some it ∧
      (∃ r0 : KPRecord, chain.head? = some (Item.dict r0) ∧ r0.parentId = none) ∧
      linkedR chain) := by
  refine ⟨by decide, by decide, ?_⟩
  exact kp_ancestry_chain
    ⟨[Item.dict ⟨some "R", none, none, none, none⟩,
      Item.dict ⟨some "B", some "R", none, none, none⟩],
     [("R", Item.dict ⟨some "R", none, none, none, none⟩),
      ("B", Item.dict ⟨some "B", some "R", none, none, none⟩)],
     [Item.dict ⟨some "R", none, none, none, none⟩,
      Item.dict ⟨some "B", some "R", none, none, none⟩]⟩
    (fun k2 => if k2 = "R" then 0 else 1) "B" 2
    (by decide) (by decide)
    (by
      intro r hr k2 p hk2 hp
      simp only [List.mem_cons, List.not_mem_nil, or_false] at hr
      rcases hr with hr | hr
      · injection hr with hr
        subst hr
        simp at hp
      · injection hr with hr
        subst hr
        simp at hk2 hp
        subst hk2
        subst hp
        decide)
    (by decide) (by decide)

/-- C7 counterexample: a store holding only a record B whose parentId
dangles (points at an absent kpid A): the ancestry of B is the single
record B, whose parentId is not null, so the claim that the sequence starts
at a record with null parentId fails without a no-dangling hypothesis. -/
theorem kp_ancestry_dangling_cex :
    hasKpid [Item.dict ⟨some "B", some "A", none, none, none⟩] "B" ∧
    get_ancestry
        ⟨[Item.dict ⟨some "B", some "A", none, none, none⟩],
         [("B", Item.dict ⟨some "B", some "A", none, none, none⟩)],
         [Item.dict ⟨some "B", some "A", none, none, none⟩]⟩ "B" 5
      = Except.ok [Item.dict ⟨some "B", some "A", none, none, none⟩] ∧
    KPRecord.parentId ⟨some "B", some "A", none, none, none⟩ ≠ none := by
  refine ⟨by decide, by decide, by decide⟩

/-- C9 (spec-modelled): get_full_question_context returns a structure in
which, when no question with the given id exists, target is absent and the
other fields are empty; children is non-empty only when the target has
structureType COMPOSITE, and in that case children is exactly the set of
stored questions whose parentId equals the given id. -/
theorem question_context_spec (questions : List QRecord) (qid : String) :
    (get_question_by_id questions qid = none →
      (get_full_question_context questions qid).target = none ∧
      (get_full_question_context questions qid).parent = none ∧
      (get_full_question_context questions qid).children = []) ∧
    ((get_full_question_context questions qid).children ≠ [] →
      ∃ t, (get_full_question_context questions qid).target = some t ∧
        t.structureType = some "COMPOSITE") ∧
    (∀ t, (get_full_question_context questions qid).target = some t →
      t.structureType = some "COMPOSITE" →
      ∀ q, (q ∈ (get_full_question_context questions qid).children ↔
        (q ∈ questions ∧ q.parentId = some qid))) := by
  cases hg : get_question_by_id questions qid with
  | none =>
    refine ⟨fun _ => ?_, ?_, ?_⟩
    · unfold get_full_question_context
      rw [hg]
      exact ⟨rfl, rfl, rfl⟩
    · unfold get_full_question_context
      rw [hg]
      intro hc
      exact absurd rfl hc
    · unfold get_full_question_context
      rw [hg]
      intro t ht
      exact absurd ht (by simp)
  | some t0 =>
    refine ⟨fun hn => Option.noConfusion hn, ?_, ?_⟩
    · unfold get_full_question_context
      rw [hg]
      dsimp only
      by_cases hcomp : t0.structureType = some "COMPOSITE"
      · intro _
        exact ⟨t0, rfl, hcomp⟩
      · rw [if_neg hcomp]
        intro hc
        exact absurd rfl hc
    · unfold get_full_question_context
      rw [hg]
      dsimp only
      intro t ht hcomp q
      injection ht with ht
      subst ht
      rw [if_pos hcomp]
      unfold getChildren
      constructor
      · intro hq
        obtain ⟨hm, hp⟩ := List.mem_filter.mp hq
        exact ⟨hm, of_decide_eq_true hp⟩
      · intro hqm
        exact List.mem_filter.mpr ⟨hqm.1, decide_eq_true hqm.2⟩

/-- C9 witness: a two-question store with a COMPOSITE parent p1 and an
ATOMIC child whose parentId is p1; the context of p1 has p1 as target and
the child is in its children exactly as the filter states. -/
theorem question_context_spec_witness :
    (get_full_question_context
        [⟨some "p1", some "COMPOSITE", none, some "material", none⟩,
         ⟨some "c1", some "ATOMIC", some "p1", some "sub", none⟩] "p1").target
      = some ⟨some "p1", some "COMPOSITE", none, some "material", none⟩ ∧
    ((⟨some "c1", some "ATOMIC", some "p1", some "sub", none⟩ : QRecord)
        ∈ (get_full_question_context
          [⟨some "p1", some "COMPOSITE", none, some "material", none⟩,
           ⟨some "c1", some "ATOMIC", some "p1", some "sub", none⟩] "p1").children ↔
      ((⟨some "c1", some "ATOMIC", some "p1", some "sub", none⟩ : QRecord)
          ∈ [(⟨some "p1", some "COMPOSITE", none, some "material", none⟩ : QRecord),
             ⟨some "c1", some "ATOMIC", some "p1", some "sub", none⟩] ∧
        (⟨some "c1", some "ATOMIC", some "p1", some "sub", none⟩ : QRecord).parentId
          = some "p1")) := by
  refine ⟨by decide, ?_⟩
  exact (question_context_spec
    [⟨some "p1", some "COMPOSITE", none, some "material", none⟩,
     ⟨some "c1", some "ATOMIC", some "p1", some "sub", none⟩] "p1").2.2
    ⟨some "p1", some "COMPOSITE", none, some "material", none⟩
    (by decide) (by decide)
    ⟨some "c1", some "ATOMIC", some "p1", some "sub", none⟩
